import Mathlib

/-!
Shallow embedding of the file-modification core of the `code_puppy` repository:
the replacement engine, full-write path, diff display formatter, permission
reduction and callback dispatch from `code_puppy/tools/file_modifications.py`,
`code_puppy/callbacks.py` and the two plugin modules.

Text is modelled as `List Char` (Python `str`), the Jaro-Winkler score as `ℚ`,
raising Python callables as `Except`-valued functions, and the on-disk file
content as an explicit `Option (List Char)` value threaded through the
functions that read or write it.
-/

namespace CodePuppy

/-! ### Python string primitives -/

/-- Line-break characters recognised by Python `str.splitlines`. -/
def isLineBreak (c : Char) : Bool :=
  c = '\n' || c = '\r' || c = '\u000B' || c = '\u000C' ||
  c = '\u001C' || c = '\u001D' || c = '\u001E' || c = '\u0085' ||
  c = '\u2028' || c = '\u2029'

/-- Whitespace characters stripped by Python `str.strip`. -/
def isPySpace (c : Char) : Bool :=
  c = ' ' || c = '\t' || isLineBreak c

/-- Python `str.splitlines()` (without keepends): split at line breaks,
treating `"\r\n"` as a single break, with no trailing empty line for a
terminal break. -/
def splitlinesPy : List Char → List (List Char)
  | [] => []
  | '\r' :: '\n' :: t => [] :: splitlinesPy t
  | c :: t =>
    if isLineBreak c then [] :: splitlinesPy t
    else
      match splitlinesPy t with
      | [] => [[c]]
      | l :: ls => (c :: l) :: ls

/-- Python `str.splitlines(keepends=True)`. -/
def splitKeepPy : List Char → List (List Char)
  | [] => []
  | '\r' :: '\n' :: t => ['\r', '\n'] :: splitKeepPy t
  | c :: t =>
    if isLineBreak c then [c] :: splitKeepPy t
    else
      match splitKeepPy t with
      | [] => [[c]]
      | l :: ls => (c :: l) :: ls

/-- Python `"\n".join(ls)`. -/
def joinNl : List (List Char) → List Char
  | [] => []
  | [l] => l
  | l :: ls => l ++ '\n' :: joinNl ls

/-- Python substring test `old in s` (true at some start index, including the
empty pattern). -/
def occurs (old s : List Char) : Bool :=
  (List.range (s.length + 1)).any (fun i => old.isPrefixOf (s.drop i))

/-- Python `s.replace(old, new)`: left-to-right, non-overlapping replacement of
every occurrence (identity for an empty pattern; the caller guards that case). -/
def replaceAll (old new : List Char) (s : List Char) : List Char :=
  match s with
  | [] => []
  | c :: t =>
    if h : old.isPrefixOf (c :: t) = true ∧ old ≠ [] then
      new ++ replaceAll old new ((c :: t).drop old.length)
    else
      c :: replaceAll old new t
termination_by s.length
decreasing_by
  · have : 0 < old.length := List.length_pos.mpr h.2
    simp only [List.length_drop, List.length_cons]
    omega
  · simp only [List.length_cons]
    omega

/-- Python `s.rstrip("\n")`. -/
def rstripNl (s : List Char) : List Char :=
  (s.reverse.dropWhile (fun c => c = '\n')).reverse

/-- Python `s.strip()`. -/
def stripPy (s : List Char) : List Char :=
  ((s.dropWhile isPySpace).reverse.dropWhile isPySpace).reverse

/-! ### `code_puppy/callbacks.py` -/

/-- One handler invocation inside `_trigger_callbacks_sync`: the `try/except`
body that appends the handler's value, or `None` if the handler raised. -/
def runIsolated {α β ε : Type} (cb : α → Except ε β) (arg : α) : Option β :=
  match cb arg with
  | Except.ok r => some r
  | Except.error _ => none

/-- `_trigger_callbacks_sync`: empty list when no handlers are registered,
otherwise one result slot per handler, in registration order, each handler
receiving the same argument and a raising handler contributing `none`. -/
def triggerCallbacksSync {α β ε : Type} (callbacks : List (α → Except ε β)) (arg : α) :
    List (Option β) :=
  match callbacks with
  | [] => []
  | cb :: rest => runIsolated cb arg :: triggerCallbacksSync rest arg

/-! ### Permission reduction (`prompt_for_file_permission` in
`code_puppy/tools/file_modifications.py`) -/

/-- The reduction over the `on_file_permission` dispatch results:
`if not permission_results: return True` then
`all(result for result in permission_results if result is not None)`. -/
def prompt_for_file_permission (permissionResults : List (Option Bool)) : Bool :=
  if permissionResults.isEmpty then true
  else (permissionResults.filterMap id).all (fun b => b)

/-- `prompt_for_file_permission` composed with the EventBus dispatch over the
registered `file_permission` handlers. -/
def authorizeFilePermission {α ε : Type} (handlers : List (α → Except ε Bool)) (arg : α) :
    Bool :=
  prompt_for_file_permission (triggerCallbacksSync handlers arg)

/-! ### `code_puppy/plugins/file_permission_handler/register_callbacks.py` -/

/-- What the single `input()` call can produce: a line of text, or an
interruption (`KeyboardInterrupt` / `EOFError`). -/
inductive PromptInput where
  | interrupted : PromptInput
  | line : List Char → PromptInput

/-- Result of the interactive prompt, with the process-wide confirmation lock
state at return modelled explicitly. -/
structure PromptOutcome where
  granted : Bool
  busyDenied : Bool
  lockHeldAfter : Bool
deriving DecidableEq

/-- `user_input.strip().lower() in {"yes", "y", ""}`. -/
def affirmative (s : List Char) : Bool :=
  let t := (stripPy s).map Char.toLower
  t == "yes".toList || t == "y".toList || t == []

/-- The plugin's `prompt_for_file_permission`: auto-approve in yolo mode or on a
non-interactive stdin; otherwise a non-blocking try-acquire of the confirmation
lock, denying with a busy warning if it is already held; otherwise read one
line (interruption counts as denial) and release the lock on every exit path
(`finally`). -/
def pluginPromptForFilePermission (yolo isatty lockHeld : Bool) (inp : PromptInput) :
    PromptOutcome :=
  if yolo || !isatty then
    { granted := true, busyDenied := false, lockHeldAfter := lockHeld }
  else if lockHeld then
    { granted := false, busyDenied := true, lockHeldAfter := lockHeld }
  else
    let confirmed :=
      match inp with
      | PromptInput.interrupted => false
      | PromptInput.line s => affirmative s
    { granted := confirmed, busyDenied := false, lockHeldAfter := false }

/-! ### Diff display formatting (`_format_diff_line`,
`_format_diff_with_highlighting`) -/

/-- `_format_diff_line`: wrap a single diff line in rich markup according to
its leading characters; context lines pass through unchanged. -/
def _format_diff_line (l : List Char) : List Char :=
  if "+".toList.isPrefixOf l && !("+++".toList.isPrefixOf l) then
    "[bold green]".toList ++ l ++ "[/bold green]".toList
  else if "-".toList.isPrefixOf l && !("---".toList.isPrefixOf l) then
    "[bold red]".toList ++ l ++ "[/bold red]".toList
  else if "@@".toList.isPrefixOf l then
    "[bold cyan]".toList ++ l ++ "[/bold cyan]".toList
  else if "+++".toList.isPrefixOf l || "---".toList.isPrefixOf l then
    "[dim white]".toList ++ l ++ "[/dim white]".toList
  else l

/-- `_format_diff_with_highlighting`: placeholder for empty/blank diff text,
otherwise format each `splitlines` line and re-join with `"\n"`. -/
def _format_diff_with_highlighting (t : List Char) : List Char :=
  if t.isEmpty || (stripPy t).isEmpty then
    "[dim]-- no diff available --[/dim]".toList
  else
    joinNl ((splitlinesPy t).map _format_diff_line)

/-! ### The replacement engine (`_replace_in_file`) -/

/-- One `(old_str, new_str)` pair of a `ReplacementsPayload`. -/
structure Replacement where
  old_str : List Char
  new_str : List Char
deriving DecidableEq

/-- The `_find_best_window` collaborator from `code_puppy/tools/common.py`
(not part of the sources under scrutiny): takes the document's lines and a
snippet and reports an optional `[start, end)` window plus a similarity score. -/
abbrev FindBestWindow := List (List Char) → List Char → Option (ℕ × ℕ) × ℚ

/-- The `difflib.unified_diff` collaborator, joined to one text as the source
does with `"".join(...)`: takes the before and after line lists (with line
ends kept) and produces the unified diff text. -/
abbrev UnifiedDiff := List (List Char) → List (List Char) → List Char

/-- Result of processing one replacement inside `_replace_in_file`'s loop. -/
inductive ReplaceStep where
  | ok : List Char → ReplaceStep
  | noMatch : ℚ → List Char → ReplaceStep
deriving DecidableEq

/-- One iteration of `_replace_in_file`'s loop: an exact, whole-document
literal substitution when the non-empty `old_str` occurs verbatim, otherwise a
fuzzy window match that either splices `new_str` into the matched line window
or fails carrying the score and the received snippet. -/
def applyReplacement (fbw : FindBestWindow) (modified : List Char) (rep : Replacement) :
    ReplaceStep :=
  if !rep.old_str.isEmpty && occurs rep.old_str modified then
    ReplaceStep.ok (replaceAll rep.old_str rep.new_str modified)
  else
    let origLines := splitlinesPy modified
    let res := fbw origLines rep.old_str
    if res.2 < (0.95 : ℚ) ∨ res.1 = none then
      ReplaceStep.noMatch res.2 rep.old_str
    else
      match res.1 with
      | none => ReplaceStep.noMatch res.2 rep.old_str
      | some (start, stop) =>
        ReplaceStep.ok (joinNl (origLines.take start) ++ '\n' ::
          (rstripNl rep.new_str ++ '\n' :: joinNl (origLines.drop stop)))

/-- The full loop of `_replace_in_file` over the in-memory working copy. -/
def replaceLoop (fbw : FindBestWindow) (modified : List Char) :
    List Replacement → ReplaceStep
  | [] => ReplaceStep.ok modified
  | rep :: rest =>
    match applyReplacement fbw modified rep with
    | ReplaceStep.ok m => replaceLoop fbw m rest
    | ReplaceStep.noMatch s r => ReplaceStep.noMatch s r

/-- The result dictionaries of the file-modification helpers: every key that a
given path leaves out of its dictionary is `none`. -/
structure MutationOutcome where
  success : Option Bool := none
  changed : Option Bool := none
  error : Option (List Char) := none
  jw_score : Option ℚ := none
  received : Option (List Char) := none
  diff : Option (List Char) := none
deriving DecidableEq

/-- The literal error message of the no-suitable-match branch. -/
def noSuitableMatchMsg : List Char := "No suitable match in file (JW < 0.95)".toList

/-- `_replace_in_file`: run the loop against an in-memory copy; on failure
return the error outcome and leave the disk content untouched; on success
commit the working copy (second component is the disk content after the call). -/
def _replace_in_file (udiff : UnifiedDiff) (fbw : FindBestWindow)
    (original : List Char) (replacements : List Replacement) :
    MutationOutcome × List Char :=
  match replaceLoop fbw original replacements with
  | ReplaceStep.noMatch score received =>
    ({ error := some noSuitableMatchMsg, jw_score := some score,
       received := some received, diff := some [] }, original)
  | ReplaceStep.ok modified =>
    if modified = original then
      ({ success := some false, changed := some false, diff := some [] }, original)
    else
      ({ success := some true, changed := some true,
         diff := some (udiff (splitKeepPy original) (splitKeepPy modified)) }, modified)

/-! ### The full-write path (`_write_to_file`, `_preview_write_to_file`,
`write_to_file`, `_edit_file`) -/

/-- `_preview_write_to_file`: `None` when the target exists and `overwrite` is
false, otherwise the diff of `[] if not exists else [""]` against the new
content's lines. -/
def _preview_write_to_file (udiff : UnifiedDiff) (disk : Option (List Char))
    (content : List Char) (overwrite : Bool) : Option (List Char) :=
  if disk.isSome && !overwrite then none
  else some (udiff (if disk.isSome then [([] : List Char)] else []) (splitKeepPy content))

/-- `_write_to_file`: refuse to overwrite without the flag; otherwise compute
the diff of `[] if not exists else [""]` against the new content's lines and
write the content (second component is the disk content after the call). -/
def _write_to_file (udiff : UnifiedDiff) (disk : Option (List Char))
    (content : List Char) (overwrite : Bool) : MutationOutcome × Option (List Char) :=
  if disk.isSome && !overwrite then
    ({ success := some false, changed := some false, diff := some [] }, disk)
  else
    let diffText := udiff (if disk.isSome then [([] : List Char)] else []) (splitKeepPy content)
    ({ success := some true, changed := some true, diff := some diffText }, some content)

/-- Observable steps of the write pipeline, for stating what a path did or
did not do. -/
inductive EditEvent where
  | previewBuilt : EditEvent
  | permissionAsked : EditEvent
  | fileWritten : EditEvent
deriving DecidableEq

/-- `write_to_file` (the wrapper): outside yolo mode build a preview
(`previewBuilt`), fail if it cannot be built, then ask for permission
(`permissionAsked`, with the aggregated decision abstracted as `permit`),
and only then run `_write_to_file`. -/
def write_to_file (yolo permit : Bool) (udiff : UnifiedDiff) (disk : Option (List Char))
    (content : List Char) (overwrite : Bool) :
    MutationOutcome × Option (List Char) × List EditEvent :=
  if !yolo then
    match _preview_write_to_file udiff disk content overwrite with
    | none =>
      ({ error := some ("Failed to generate preview".toList), changed := some false },
        disk, [EditEvent.previewBuilt])
    | some _ =>
      if !permit then
        ({ success := some false, changed := some false }, disk,
          [EditEvent.previewBuilt, EditEvent.permissionAsked])
      else
        let r := _write_to_file udiff disk content overwrite
        (r.1, r.2, [EditEvent.previewBuilt, EditEvent.permissionAsked] ++
          (if r.1.changed = some true then [EditEvent.fileWritten] else []))
  else
    let r := _write_to_file udiff disk content overwrite
    (r.1, r.2, if r.1.changed = some true then [EditEvent.fileWritten] else [])

/-- The `ContentPayload` branch of `_edit_file`: the hard guard
`if file_exists and not payload.overwrite` short-circuits before
`write_to_file` is ever reached. -/
def _edit_file_content (yolo permit : Bool) (udiff : UnifiedDiff)
    (disk : Option (List Char)) (content : List Char) (overwrite : Bool) :
    MutationOutcome × Option (List Char) × List EditEvent :=
  if disk.isSome && !overwrite then
    ({ success := some false, changed := some false }, disk, [])
  else
    write_to_file yolo permit udiff disk content overwrite

/-! ### The public tool wrappers (`edit_file`, `delete_file`) -/

/-- `del result["diff"]`. -/
def stripDiffKey (r : MutationOutcome) : MutationOutcome := { r with diff := none }

/-- The `for enhanced_result in enhanced_results: if enhanced_result is not
None: ... break` loop: the first non-`None` entry. -/
def firstSome {β : Type} : List (Option β) → Option β
  | [] => none
  | some x :: _ => some x
  | none :: t => firstSome t

/-- The `edit_file` tool body after `_edit_file` produced `inner`: the diff is
deleted from the result, then the `edit_file` callbacks are dispatched on the
result and the first non-`None` enhancement replaces it. -/
def edit_file_tool {ε : Type}
    (handlers : List (MutationOutcome → Except ε (Option MutationOutcome)))
    (inner : MutationOutcome) : MutationOutcome :=
  let result := stripDiffKey inner
  let enhanced := triggerCallbacksSync handlers result
  match firstSome (enhanced.map Option.join) with
  | some r => r
  | none => result

/-- The exception text of the unresolved name at the `delete_file` dispatch
site. -/
def nameErrorOnDeleteFile : List Char :=
  "NameError: name on_delete_file is not defined".toList

/-- The `delete_file` tool body after `_delete_file` produced `inner`: the
diff key is deleted, but the following dispatch expression evaluates the name
`on_delete_file`, which the module never imports (`file_modifications.py`
line 24 imports only `on_edit_file` and `on_file_permission`), so the call
raises `NameError` — no `delete_file` handler is ever invoked, whatever is
registered, and the caller receives the exception instead of an outcome. -/
def delete_file_tool {ε : Type}
    (handlers : List (MutationOutcome → Except ε (Option MutationOutcome)))
    (inner : MutationOutcome) : Except (List Char) MutationOutcome :=
  let _result := stripDiffKey inner
  Except.error nameErrorOnDeleteFile

/-! ## Shared lemmas -/

/-- Slot-wise characterization of the synchronous dispatch. -/
theorem triggerCallbacksSync_getElem {α β ε : Type} (callbacks : List (α → Except ε β))
    (arg : α) (i : ℕ) :
    (triggerCallbacksSync callbacks arg)[i]? =
      (callbacks[i]?).map (fun cb => runIsolated cb arg) := by
  induction callbacks generalizing i with
  | nil => simp [triggerCallbacksSync]
  | cons cb rest ih =>
    cases i with
    | zero => simp [triggerCallbacksSync]
    | succ n => simpa [triggerCallbacksSync] using ih n

/-- The dispatch produces one slot per handler. -/
theorem triggerCallbacksSync_length {α β ε : Type} (callbacks : List (α → Except ε β))
    (arg : α) :
    (triggerCallbacksSync callbacks arg).length = callbacks.length := by
  induction callbacks with
  | nil => rfl
  | cons cb rest ih => simpa [triggerCallbacksSync] using ih

/-! ## Claims -/

/-- C7: synchronous dispatch returns the empty list when no handlers are
registered, and otherwise exactly one result slot per registered handler, in
registration order, each handler invoked with the same argument; a raising
handler yields slot `none` and dispatch continues with the remaining
handlers. -/
theorem claim_C7 {α β ε : Type} (callbacks : List (α → Except ε β)) (arg : α) :
    (callbacks = [] → triggerCallbacksSync callbacks arg = []) ∧
    (triggerCallbacksSync callbacks arg).length = callbacks.length ∧
    (∀ i : ℕ, (triggerCallbacksSync callbacks arg)[i]? =
      (callbacks[i]?).map (fun cb => runIsolated cb arg)) ∧
    (∀ (i : ℕ) (cb : α → Except ε β) (e : ε), callbacks[i]? = some cb →
      cb arg = Except.error e → (triggerCallbacksSync callbacks arg)[i]? = some none) := by
  refine ⟨?_, triggerCallbacksSync_length callbacks arg,
    triggerCallbacksSync_getElem callbacks arg, ?_⟩
  · rintro rfl; rfl
  · intro i cb e hget herr
    rw [triggerCallbacksSync_getElem, hget]
    simp [runIsolated, herr]

/-- Concrete handler list for exercising the dispatch theorems. -/
def cbsC7 : List (Unit → Except (List Char) ℕ) :=
  [fun _ => Except.ok 1, fun _ => Except.error ("boom".toList), fun _ => Except.ok 3]

/-- Witness for C7: on a three-handler list whose middle handler raises, the
middle slot is `none` while dispatch still yields three slots. -/
theorem claim_C7_witness :
    (triggerCallbacksSync cbsC7 ())[1]? = some none ∧
    (triggerCallbacksSync cbsC7 ()).length = cbsC7.length :=
  ⟨(claim_C7 cbsC7 ()).2.2.2 1 (fun _ => Except.error ("boom".toList)) ("boom".toList)
      rfl rfl,
    (claim_C7 cbsC7 ()).2.1⟩

/-- C4: the permission decision over the registered policy handlers defaults
to allow when no handler is registered; with handlers present it allows iff
every non-`None` response is truthy; and a single handler answering `False`
forces denial regardless of the other handlers or their order. -/
theorem claim_C4 {α ε : Type} (handlers : List (α → Except ε Bool)) (arg : α) :
    (handlers = [] → authorizeFilePermission handlers arg = true) ∧
    (handlers ≠ [] →
      (authorizeFilePermission handlers arg = true ↔
        ∀ b : Bool, some b ∈ triggerCallbacksSync handlers arg → b = true)) ∧
    (∀ (i : ℕ) (cb : α → Except ε Bool), handlers[i]? = some cb →
      cb arg = Except.ok false → authorizeFilePermission handlers arg = false) := by
  have hiff : handlers ≠ [] →
      (authorizeFilePermission handlers arg = true ↔
        ∀ b : Bool, some b ∈ triggerCallbacksSync handlers arg → b = true) := by
    intro hne
    have hlen : (triggerCallbacksSync handlers arg) ≠ [] := by
      intro hnil
      have := triggerCallbacksSync_length handlers arg
      rw [hnil] at this
      exact hne (List.eq_nil_of_length_eq_zero this.symm)
    unfold authorizeFilePermission prompt_for_file_permission
    rw [if_neg (by simpa [List.isEmpty_iff] using hlen)]
    constructor
    · intro hall b hmem
      exact List.all_eq_true.mp hall b (List.mem_filterMap.mpr ⟨some b, hmem, rfl⟩)
    · intro h
      apply List.all_eq_true.mpr
      intro b hb
      obtain ⟨o, ho, hid⟩ := List.mem_filterMap.mp hb
      cases o with
      | none => exact absurd hid (by simp)
      | some b2 =>
        have hb2 : b2 = b := by simpa using hid
        subst hb2
        exact h b2 ho
  refine ⟨?_, hiff, ?_⟩
  · rintro rfl; rfl
  · intro i cb hget hfalse
    have hne : handlers ≠ [] := by
      rintro rfl; simp at hget
    have hmem : some false ∈ triggerCallbacksSync handlers arg := by
      have hslot : (triggerCallbacksSync handlers arg)[i]? = some (some false) := by
        rw [triggerCallbacksSync_getElem, hget]
        simp [runIsolated, hfalse]
      exact List.getElem?_mem hslot
    cases hauth : authorizeFilePermission handlers arg with
    | false => rfl
    | true =>
      have := ((hiff hne).mp hauth) false hmem
      exact absurd this (by simp)

/-- Concrete policy handler lists for exercising the permission theorems. -/
def permHandlersC4 : List (Unit → Except (List Char) Bool) :=
  [fun _ => Except.ok true, fun _ => Except.ok false, fun _ => Except.error ("x".toList)]

/-- Witness for C4: no handlers means allow; a `False` amid other handlers
means deny. -/
theorem claim_C4_witness :
    authorizeFilePermission ([] : List (Unit → Except (List Char) Bool)) () = true ∧
    authorizeFilePermission permHandlersC4 () = false :=
  ⟨(claim_C4 ([] : List (Unit → Except (List Char) Bool)) ()).1 rfl,
    (claim_C4 permHandlersC4 ()).2.2 1 (fun _ => Except.ok false) rfl rfl⟩

/-- C3: a `ContentPayload` request on an existing file with `overwrite=false`
terminates at once with `success=false, changed=false`, the disk content is
untouched, and neither a preview nor a permission check ever happens (the
event trace is empty), whatever the mode and whatever the permission decision
would have been. -/
theorem claim_C3 (yolo permit : Bool) (udiff : UnifiedDiff) (prior content : List Char) :
    _edit_file_content yolo permit udiff (some prior) content false =
      ({ success := some false, changed := some false }, some prior, []) := by
  rfl

/-- C6: while the process-wide confirmation lock is held, an interactive
attended permission prompt denies immediately with the busy reason and leaves
the lock alone; and whenever the caller is the one that acquired the lock, the
lock is free again on every exit path, including interruption. -/
theorem claim_C6 (yolo isatty lockHeld : Bool) (inp : PromptInput) :
    (yolo = false → isatty = true → lockHeld = true →
      pluginPromptForFilePermission yolo isatty lockHeld inp =
        { granted := false, busyDenied := true, lockHeldAfter := true }) ∧
    (lockHeld = false →
      (pluginPromptForFilePermission yolo isatty lockHeld inp).lockHeldAfter = false) := by
  constructor
  · rintro rfl rfl rfl; rfl
  · rintro rfl
    cases yolo <;> cases isatty <;> cases inp <;>
      simp [pluginPromptForFilePermission]

/-- Witness for C6: with the lock held, the prompt reports busy denial; a
holder interrupted at the `input()` call still ends with the lock released. -/
theorem claim_C6_witness :
    pluginPromptForFilePermission false true true PromptInput.interrupted =
      { granted := false, busyDenied := true, lockHeldAfter := true } ∧
    (pluginPromptForFilePermission false true false PromptInput.interrupted).lockHeldAfter
      = false :=
  ⟨(claim_C6 false true true PromptInput.interrupted).1 rfl rfl rfl,
    (claim_C6 false true false PromptInput.interrupted).2 rfl⟩

/-- C2: a replacement whose old text does not occur verbatim and whose fuzzy
lookup scores below 0.95 (or finds no window) turns into a `noMatch` failure
carrying the score and the literal old text; a failing replacement aborts the
whole loop; and the aborted request returns the error outcome carrying score
and old text while the disk content stays byte-identical to its pre-call
state. -/
theorem claim_C2 (udiff : UnifiedDiff) (fbw : FindBestWindow) :
    (∀ (modified : List Char) (rep : Replacement),
      occurs rep.old_str modified = false →
      ((fbw (splitlinesPy modified) rep.old_str).2 < (0.95 : ℚ) ∨
        (fbw (splitlinesPy modified) rep.old_str).1 = none) →
      applyReplacement fbw modified rep =
        ReplaceStep.noMatch (fbw (splitlinesPy modified) rep.old_str).2 rep.old_str) ∧
    (∀ (modified : List Char) (rep : Replacement) (rest : List Replacement) (s : ℚ)
      (r : List Char), applyReplacement fbw modified rep = ReplaceStep.noMatch s r →
      replaceLoop fbw modified (rep :: rest) = ReplaceStep.noMatch s r) ∧
    (∀ (original : List Char) (replacements : List Replacement) (s : ℚ) (r : List Char),
      replaceLoop fbw original replacements = ReplaceStep.noMatch s r →
      _replace_in_file udiff fbw original replacements =
        ({ error := some noSuitableMatchMsg, jw_score := some s,
           received := some r, diff := some [] }, original)) := by
  refine ⟨?_, ?_, ?_⟩
  · intro modified rep hocc hcond
    unfold applyReplacement
    have hguard : (!rep.old_str.isEmpty && occurs rep.old_str modified) = false := by
      rw [hocc]; exact Bool.and_false _
    rw [hguard]
    simp only [Bool.false_eq_true, if_false]
    exact if_pos hcond
  · intro modified rep rest s r h
    unfold replaceLoop
    rw [h]
  · intro original replacements s r h
    unfold _replace_in_file
    rw [h]

/-- A `_find_best_window` stand-in that finds nothing. -/
def fbwNone : FindBestWindow := fun _ _ => (none, 0)

/-- A `difflib.unified_diff` stand-in that depends on both of its line-list
arguments. -/
def udFlat : UnifiedDiff := fun a b => a.flatten ++ b.flatten

/-- Witness for C2: a single non-matching replacement produces the error
outcome with score 0 and the old text, and leaves the content untouched. -/
theorem claim_C2_witness :
    _replace_in_file udFlat fbwNone ("abc".toList) [⟨"zz".toList, "n".toList⟩] =
      ({ error := some noSuitableMatchMsg, jw_score := some 0,
         received := some ("zz".toList), diff := some [] }, "abc".toList) :=
  (claim_C2 udFlat fbwNone).2.2 ("abc".toList) [⟨"zz".toList, "n".toList⟩] 0
    ("zz".toList)
    ((claim_C2 udFlat fbwNone).2.1 ("abc".toList) ⟨"zz".toList, "n".toList⟩ [] 0
      ("zz".toList)
      ((claim_C2 udFlat fbwNone).1 ("abc".toList) ⟨"zz".toList, "n".toList⟩
        (by decide) (Or.inr rfl)))

/-- C10: a replacement resolved through the fuzzy window matcher whose matched
window starts at line index 0 splices the empty line prefix, a newline, the
trailing-newline-stripped new text, a newline and the remaining lines — so the
resulting working copy begins with a newline character. -/
theorem claim_C10 (fbw : FindBestWindow) (modified : List Char) (rep : Replacement)
    (stop : ℕ) (score : ℚ)
    (hocc : occurs rep.old_str modified = false)
    (hfbw : fbw (splitlinesPy modified) rep.old_str = (some (0, stop), score))
    (hscore : ¬ score < (0.95 : ℚ)) :
    applyReplacement fbw modified rep =
      ReplaceStep.ok ('\n' :: (rstripNl rep.new_str ++ '\n' ::
        joinNl ((splitlinesPy modified).drop stop))) ∧
    ∀ m : List Char, applyReplacement fbw modified rep = ReplaceStep.ok m →
      m.head? = some '\n' := by
  have hguard : (!rep.old_str.isEmpty && occurs rep.old_str modified) = false := by
    rw [hocc]; exact Bool.and_false _
  have hmain : applyReplacement fbw modified rep =
      ReplaceStep.ok ('\n' :: (rstripNl rep.new_str ++ '\n' ::
        joinNl ((splitlinesPy modified).drop stop))) := by
    unfold applyReplacement
    rw [hguard]
    simp only [Bool.false_eq_true, if_false, hfbw]
    rw [if_neg ?_]
    · simp [joinNl]
    · rintro (h | h)
      · exact hscore h
      · simp at h
  refine ⟨hmain, ?_⟩
  intro m hm
  rw [hmain] at hm
  obtain rfl : '\n' :: (rstripNl rep.new_str ++ '\n' ::
      joinNl ((splitlinesPy modified).drop stop)) = m := by
    simpa using hm
  rfl

/-- A `_find_best_window` stand-in that always reports the window `[0, 1)` at
full score. -/
def fbwWin : FindBestWindow := fun _ _ => (some (0, 1), 1)

/-- Witness for C10: with a fuzzy window at line 0, the spliced working copy
starts with a newline. -/
theorem claim_C10_witness :
    applyReplacement fbwWin ("ab".toList) ⟨"zz".toList, "NEW".toList⟩ =
      ReplaceStep.ok ('\n' :: (rstripNl ("NEW".toList) ++ '\n' ::
        joinNl ((splitlinesPy ("ab".toList)).drop 1))) :=
  (claim_C10 fbwWin ("ab".toList) ⟨"zz".toList, "NEW".toList⟩ 1 1 (by decide) rfl
    (by norm_num)).1

/-- C1, counterexample: for a full write over an existing file with
`overwrite=true`, the diff the code returns is NOT the unified diff between
the file's exact prior content and the new content — at prior content
`"abc\n"` it differs from the diff of the exact before/after lines, and it
does not change at all when the prior content changes. -/
theorem claim_C1_counterexample :
    (_write_to_file udFlat (some ("abc\n".toList)) ("xyz\n".toList) true).1.diff ≠
      some (udFlat (splitKeepPy ("abc\n".toList)) (splitKeepPy ("xyz\n".toList))) ∧
    (_write_to_file udFlat (some ("abc\n".toList)) ("xyz\n".toList) true).1.diff =
      (_write_to_file udFlat (some ("qq".toList)) ("xyz\n".toList) true).1.diff := by
  exact ⟨by decide, rfl⟩

/-- C1, amended: for a full write over an existing file with `overwrite=true`,
the returned diff (and the preview diff) is computed with a fixed
one-empty-line stand-in `[""]` as the before side rather than the file's
exact prior bytes, so it is independent of the prior content. -/
theorem claim_C1_amended (udiff : UnifiedDiff) (prior1 prior2 content : List Char) :
    (_write_to_file udiff (some prior1) content true).1.diff =
      some (udiff [([] : List Char)] (splitKeepPy content)) ∧
    (_write_to_file udiff (some prior1) content true).1.diff =
      (_write_to_file udiff (some prior2) content true).1.diff ∧
    _preview_write_to_file udiff (some prior1) content true =
      some (udiff [([] : List Char)] (splitKeepPy content)) := by
  exact ⟨rfl, rfl, rfl⟩

/-- A concrete inner outcome with a non-empty diff. -/
def innerC5 : MutationOutcome :=
  { success := some true, changed := some true, diff := some ("d".toList) }

/-- An enrichment handler that returns exactly the outcome it was given. -/
def echoHandlerC5 : MutationOutcome → Except (List Char) (Option MutationOutcome) :=
  fun r => Except.ok (some r)

/-- C5, counterexample: for `edit_file` the `diff` key is deleted before the
enrichment callbacks are dispatched — an enrichment handler that echoes back
exactly the outcome it receives yields an outcome with `diff := none` even
though the inner outcome carried a diff, so the handlers do not receive the
diff. For `delete_file` the dispatch never happens at all: the call raises
`NameError` (the module never imports `on_delete_file`), so the handler
receives nothing and the caller gets an exception instead of a
diff-stripped outcome. -/
theorem claim_C5_counterexample :
    edit_file_tool [echoHandlerC5] innerC5 =
      { success := some true, changed := some true, diff := none } ∧
    innerC5.diff = some ("d".toList) ∧
    delete_file_tool [echoHandlerC5] innerC5 = Except.error nameErrorOnDeleteFile := by
  exact ⟨rfl, rfl, rfl⟩

/-- C5, amended: `edit_file` deletes the `diff` key from the outcome *before*
dispatching the enrichment handlers, so the handlers and the ultimate caller
alike see the outcome without the diff — the dispatched value has no diff,
the tool's behaviour depends only on the diff-stripped outcome, and with no
handlers registered the caller receives exactly the stripped outcome.
`delete_file` deletes the diff key too, but then raises `NameError` at the
dispatch of the never-imported `on_delete_file`: no handler is invoked,
whatever is registered, and the caller receives the exception rather than an
outcome. -/
theorem claim_C5_amended {ε : Type}
    (handlers : List (MutationOutcome → Except ε (Option MutationOutcome)))
    (inner1 inner2 : MutationOutcome) :
    (stripDiffKey inner1).diff = none ∧
    (stripDiffKey inner1 = stripDiffKey inner2 →
      edit_file_tool handlers inner1 = edit_file_tool handlers inner2) ∧
    edit_file_tool ([] : List (MutationOutcome → Except ε (Option MutationOutcome)))
      inner1 = stripDiffKey inner1 ∧
    (∀ handlers2 : List (MutationOutcome → Except ε (Option MutationOutcome)),
      delete_file_tool handlers inner1 = delete_file_tool handlers2 inner2) ∧
    delete_file_tool handlers inner1 = Except.error nameErrorOnDeleteFile := by
  refine ⟨rfl, ?_, rfl, fun _ => rfl, rfl⟩
  intro h
  simp only [edit_file_tool, h]

/-- Witness for the amended C5: two inner outcomes differing only in their
diff produce identical final `edit_file` outcomes, because the handlers never
see the diff. -/
theorem claim_C5_amended_witness :
    edit_file_tool [echoHandlerC5] innerC5 =
      edit_file_tool [echoHandlerC5]
        { success := some true, changed := some true, diff := some ("other".toList) } :=
  (claim_C5_amended [echoHandlerC5] innerC5
    { success := some true, changed := some true, diff := some ("other".toList) }).2.1
      rfl

/-! ## Lemmas about `replaceAll` (Python `str.replace`) -/

/-- A list is a Boolean prefix of itself followed by anything. -/
theorem isPrefixOf_append_self (l t : List Char) : l.isPrefixOf (l ++ t) = true := by
  induction l with
  | nil => simp [List.isPrefixOf]
  | cons c l ih => simp [List.isPrefixOf, ih]

/-- One-step unfolding of `replaceAll` on a non-empty document. -/
theorem replaceAll_cons (old new : List Char) (c : Char) (t : List Char) :
    replaceAll old new (c :: t) =
      if old.isPrefixOf (c :: t) = true ∧ old ≠ [] then
        new ++ replaceAll old new ((c :: t).drop old.length)
      else c :: replaceAll old new t := by
  conv_lhs => unfold replaceAll
  rfl

/-- `replaceAll` of the empty document. -/
theorem replaceAll_nil (old new : List Char) : replaceAll old new [] = [] := by
  unfold replaceAll
  rfl

/-- `replaceAll` walks past a region in which no occurrence of the pattern
starts. -/
theorem replaceAll_skip (old new : List Char) (hold : old ≠ []) :
    ∀ u rest : List Char,
      (∀ i, i < u.length → old.isPrefixOf ((u ++ rest).drop i) = false) →
      replaceAll old new (u ++ rest) = u ++ replaceAll old new rest := by
  intro u
  induction u with
  | nil => intro rest _; simp
  | cons c u' ih =>
    intro rest h
    have h0 : old.isPrefixOf (c :: (u' ++ rest)) = false := by
      have := h 0 (by simp)
      simpa using this
    have hrec : replaceAll old new (c :: (u' ++ rest)) =
        c :: replaceAll old new (u' ++ rest) := by
      rw [replaceAll_cons, if_neg]
      rintro ⟨hp, -⟩
      rw [h0] at hp
      exact Bool.false_ne_true hp
    have htail : replaceAll old new (u' ++ rest) = u' ++ replaceAll old new rest := by
      apply ih rest
      intro i hi
      have := h (i + 1) (by simpa using Nat.succ_lt_succ hi)
      simpa using this
    calc replaceAll old new ((c :: u') ++ rest)
        = c :: replaceAll old new (u' ++ rest) := hrec
      _ = c :: (u' ++ replaceAll old new rest) := by rw [htail]
      _ = (c :: u') ++ replaceAll old new rest := rfl

/-- `replaceAll` replaces an occurrence of the pattern sitting at the head. -/
theorem replaceAll_head (old new t : List Char) (hold : old ≠ []) :
    replaceAll old new (old ++ t) = new ++ replaceAll old new t := by
  obtain ⟨c, o, rfl⟩ : ∃ c o, old = c :: o := by
    cases old with
    | nil => exact absurd rfl hold
    | cons c o => exact ⟨c, o, rfl⟩
  have hp : (c :: o).isPrefixOf (c :: (o ++ t)) = true := by
    simpa using isPrefixOf_append_self (c :: o) t
  have hd : (c :: (o ++ t)).drop (c :: o).length = t := by
    simpa using List.drop_left o t
  show replaceAll (c :: o) new (c :: (o ++ t)) = new ++ replaceAll (c :: o) new t
  rw [replaceAll_cons, if_pos ⟨hp, hold⟩, hd]

/-- `replaceAll` is the identity when the pattern does not occur. -/
theorem replaceAll_not_occurs (old new s : List Char) (hold : old ≠ [])
    (h : occurs old s = false) : replaceAll old new s = s := by
  have hall : ∀ i, i < s.length → old.isPrefixOf ((s ++ ([] : List Char)).drop i) = false := by
    intro i hi
    cases hpf : old.isPrefixOf ((s ++ ([] : List Char)).drop i) with
    | false => rfl
    | true =>
      exfalso
      have hocc : occurs old s = true := by
        unfold occurs
        rw [List.any_eq_true]
        refine ⟨i, List.mem_range.mpr (by omega), ?_⟩
        simpa using hpf
      rw [h] at hocc
      exact Bool.false_ne_true hocc
  have := replaceAll_skip old new hold s [] hall
  simpa [replaceAll_nil] using this

/-- A non-empty pattern placed after an arbitrary region occurs in the whole. -/
theorem occurs_append_at (old u rest : List Char) (hold : old ≠ []) :
    occurs old (u ++ (old ++ rest)) = true := by
  unfold occurs
  rw [List.any_eq_true]
  refine ⟨u.length, List.mem_range.mpr ?_, ?_⟩
  · simp only [List.length_append]
    omega
  · have hdrop : (u ++ (old ++ rest)).drop u.length = old ++ rest :=
      List.drop_left u (old ++ rest)
    rw [hdrop]
    exact isPrefixOf_append_self old rest

/-- C8: when the non-empty old text occurs verbatim (here: twice, at
occurrence positions where the left-to-right scan finds them), the whole
working copy is substituted at every occurrence — both become the new text,
not only the first — before the loop proceeds to the next replacement. -/
theorem claim_C8 (fbw : FindBestWindow) (u old v w new : List Char)
    (rest : List Replacement) (hold : old ≠ [])
    (hu : ∀ i, i < u.length →
      old.isPrefixOf ((u ++ (old ++ (v ++ (old ++ w)))).drop i) = false)
    (hv : ∀ i, i < v.length → old.isPrefixOf ((v ++ (old ++ w)).drop i) = false)
    (hw : occurs old w = false) :
    replaceLoop fbw (u ++ (old ++ (v ++ (old ++ w)))) (⟨old, new⟩ :: rest) =
      replaceLoop fbw (u ++ (new ++ (v ++ (new ++ w)))) rest := by
  have hocc : occurs old (u ++ (old ++ (v ++ (old ++ w)))) = true :=
    occurs_append_at old u (v ++ (old ++ w)) hold
  have hguard : (!(⟨old, new⟩ : Replacement).old_str.isEmpty &&
      occurs (⟨old, new⟩ : Replacement).old_str (u ++ (old ++ (v ++ (old ++ w))))) = true := by
    rw [hocc, Bool.and_true]
    cases old with
    | nil => exact absurd rfl hold
    | cons c o => rfl
  have hstep : applyReplacement fbw (u ++ (old ++ (v ++ (old ++ w)))) ⟨old, new⟩ =
      ReplaceStep.ok (replaceAll old new (u ++ (old ++ (v ++ (old ++ w))))) := by
    unfold applyReplacement
    rw [hguard, if_pos rfl]
  have hreplace : replaceAll old new (u ++ (old ++ (v ++ (old ++ w)))) =
      u ++ (new ++ (v ++ (new ++ w))) := by
    rw [replaceAll_skip old new hold u _ hu,
      replaceAll_head old new _ hold,
      replaceAll_skip old new hold v _ hv,
      replaceAll_head old new _ hold,
      replaceAll_not_occurs old new w hold hw]
  simp only [replaceLoop, hstep, hreplace]

/-- Witness for C8: `"foo"` occurring twice in `"q\nfoo fooend"` becomes
`"ba"` at both places in one replacement step. -/
theorem claim_C8_witness :
    replaceLoop fbwNone
      ("q\n".toList ++ ("foo".toList ++ (" ".toList ++ ("foo".toList ++ "end".toList))))
      [⟨"foo".toList, "ba".toList⟩] =
      replaceLoop fbwNone
        ("q\n".toList ++ ("ba".toList ++ (" ".toList ++ ("ba".toList ++ "end".toList))))
        [] :=
  claim_C8 fbwNone ("q\n".toList) ("foo".toList) (" ".toList) ("end".toList)
    ("ba".toList) [] (by decide) (by decide) (by decide) (by decide)

/-! ## Lemmas about the diff display formatter -/

set_option maxHeartbeats 2000000 in
/-- Unfolding `splitlinesPy` at a line-break head (other than a `"\r\n"`
pair). -/
theorem splitlinesPy_break (c : Char) (t : List Char)
    (hno : ∀ t2 : List Char, c = '\r' → t = '\n' :: t2 → False)
    (hc : isLineBreak c = true) :
    splitlinesPy (c :: t) = [] :: splitlinesPy t := by
  rw [splitlinesPy.eq_3 c t hno, if_pos hc]

/-- Unfolding `splitlinesPy` at a non-break head. -/
theorem splitlinesPy_nobreak (c : Char) (t : List Char) (hc : isLineBreak c = false) :
    splitlinesPy (c :: t) =
      match splitlinesPy t with
      | [] => [[c]]
      | l :: ls => (c :: l) :: ls := by
  have hno : ∀ t2 : List Char, c = '\r' → t = '\n' :: t2 → False := by
    intro t2 hcr _
    rw [hcr] at hc
    exact absurd hc (by decide)
  rw [splitlinesPy.eq_3 c t hno, if_neg (by simp [hc])]

/-- Unfolding `splitlinesPy` at a `'\n'` head. -/
theorem splitlinesPy_nl (t : List Char) : splitlinesPy ('\n' :: t) = [] :: splitlinesPy t := by
  apply splitlinesPy_break
  · intro t2 h _
    exact absurd h (by decide)
  · decide

/-- Every line produced by `splitlinesPy` is free of line-break characters. -/
theorem splitlines_breakfree (s : List Char) :
    ∀ l ∈ splitlinesPy s, l.all (fun c => !isLineBreak c) = true := by
  induction s using splitlinesPy.induct with
  | case1 => intro l hl; simp [splitlinesPy.eq_1] at hl
  | case2 t ih =>
    intro l hl
    rw [splitlinesPy.eq_2] at hl
    rcases List.mem_cons.mp hl with rfl | hl2
    · rfl
    · exact ih l hl2
  | case3 c t hno hc ih =>
    intro l hl
    rw [splitlinesPy_break c t hno hc] at hl
    rcases List.mem_cons.mp hl with rfl | hl2
    · rfl
    · exact ih l hl2
  | case4 c t hno hc ht ih =>
    intro l hl
    have hc2 : isLineBreak c = false := by simpa using hc
    rw [splitlinesPy_nobreak c t hc2, ht] at hl
    have hl2 : l = [c] := by simpa using hl
    subst hl2
    simp [hc2]
  | case5 c t hno hc l0 ls0 ht ih =>
    intro l hl
    have hc2 : isLineBreak c = false := by simpa using hc
    rw [splitlinesPy_nobreak c t hc2, ht] at hl
    rcases List.mem_cons.mp hl with rfl | hl2
    · have h0 : l0.all (fun c => !isLineBreak c) = true :=
        ih l0 (by rw [ht]; exact List.mem_cons_self _ _)
      simp [hc2, h0]
    · exact ih l (by rw [ht]; exact List.mem_cons_of_mem _ hl2)

/-- `splitlinesPy` of a non-empty text is non-empty. -/
theorem splitlines_ne_nil (s : List Char) (h : s ≠ []) : splitlinesPy s ≠ [] := by
  induction s using splitlinesPy.induct with
  | case1 => exact absurd rfl h
  | case2 t ih => rw [splitlinesPy.eq_2]; simp
  | case3 c t hno hc ih => rw [splitlinesPy_break c t hno hc]; simp
  | case4 c t hno hc ht ih =>
    rw [splitlinesPy_nobreak c t (by simpa using hc), ht]; simp
  | case5 c t hno hc l0 ls0 ht ih =>
    rw [splitlinesPy_nobreak c t (by simpa using hc), ht]; simp

/-- A non-whitespace character of the text lands in one of its
`splitlinesPy` lines. -/
theorem nonspace_line (s : List Char) (c : Char) (hc : c ∈ s)
    (hns : isPySpace c = false) : ∃ l ∈ splitlinesPy s, c ∈ l := by
  induction s using splitlinesPy.induct with
  | case1 => simp at hc
  | case2 t ih =>
    have hct : c ∈ t := by
      rcases List.mem_cons.mp hc with rfl | hc2
      · exact absurd hns (by decide)
      · rcases List.mem_cons.mp hc2 with rfl | hc3
        · exact absurd hns (by decide)
        · exact hc3
    obtain ⟨l, hl, hcl⟩ := ih hct
    exact ⟨l, by rw [splitlinesPy.eq_2]; exact List.mem_cons_of_mem _ hl, hcl⟩
  | case3 c0 t hno hcb ih =>
    have hct : c ∈ t := by
      rcases List.mem_cons.mp hc with rfl | h2
      · exfalso
        have : isPySpace c = true := by simp [isPySpace, hcb]
        rw [hns] at this
        exact Bool.false_ne_true this
      · exact h2
    obtain ⟨l, hl, hcl⟩ := ih hct
    exact ⟨l, by rw [splitlinesPy_break c0 t hno hcb]; exact List.mem_cons_of_mem _ hl, hcl⟩
  | case4 c0 t hno hcb ht ih =>
    have hc2 : isLineBreak c0 = false := by simpa using hcb
    rcases List.mem_cons.mp hc with rfl | h2
    · refine ⟨[c], ?_, by simp⟩
      rw [splitlinesPy_nobreak c t hc2, ht]
      simp
    · obtain ⟨l, hl, -⟩ := ih h2
      rw [ht] at hl
      simp at hl
  | case5 c0 t hno hcb l0 ls0 ht ih =>
    have hc2 : isLineBreak c0 = false := by simpa using hcb
    rcases List.mem_cons.mp hc with rfl | h2
    · refine ⟨c :: l0, ?_, List.mem_cons_self _ _⟩
      rw [splitlinesPy_nobreak c t hc2, ht]
      exact List.mem_cons_self _ _
    · obtain ⟨l, hl, hcl⟩ := ih h2
      rw [ht] at hl
      rcases List.mem_cons.mp hl with rfl | hl2
      · refine ⟨c0 :: l, ?_, List.mem_cons_of_mem _ hcl⟩
        rw [splitlinesPy_nobreak c0 t hc2, ht]
        exact List.mem_cons_self _ _
      · refine ⟨l, ?_, hcl⟩
        rw [splitlinesPy_nobreak c0 t hc2, ht]
        exact List.mem_cons_of_mem _ hl2

/-- `splitlinesPy` of a break-free non-empty text is that text as a single
line. -/
theorem splitlines_single (l : List Char) (hbf : l.all (fun c => !isLineBreak c) = true)
    (hne : l ≠ []) : splitlinesPy l = [l] := by
  induction l with
  | nil => exact absurd rfl hne
  | cons c t ih =>
    have hparts : (!isLineBreak c) = true ∧ t.all (fun c => !isLineBreak c) = true := by
      simpa using hbf
    have hc : isLineBreak c = false := by simpa using hparts.1
    rw [splitlinesPy_nobreak c t hc]
    cases t with
    | nil => rfl
    | cons c2 t2 =>
      rw [ih hparts.2 (by simp)]

/-- `splitlinesPy` splits off a break-free prefix at its terminating
newline. -/
theorem splitlinesPy_append_nl (l r : List Char)
    (hbf : l.all (fun c => !isLineBreak c) = true) :
    splitlinesPy (l ++ '\n' :: r) = l :: splitlinesPy r := by
  induction l with
  | nil => exact splitlinesPy_nl r
  | cons c t ih =>
    have hparts : (!isLineBreak c) = true ∧ t.all (fun c => !isLineBreak c) = true := by
      simpa using hbf
    have hc : isLineBreak c = false := by simpa using hparts.1
    show splitlinesPy (c :: (t ++ '\n' :: r)) = (c :: t) :: splitlinesPy r
    rw [splitlinesPy_nobreak c _ hc, ih hparts.2]

/-- Round trip: `splitlinesPy` undoes `joinNl` on a non-empty list of
break-free lines whose last line is non-empty. -/
theorem splitlines_joinNl (ls : List (List Char)) (hne : ls ≠ [])
    (hbf : ∀ l ∈ ls, l.all (fun c => !isLineBreak c) = true)
    (hlast : ls.getLast? ≠ some []) :
    splitlinesPy (joinNl ls) = ls := by
  induction ls with
  | nil => exact absurd rfl hne
  | cons l ls2 ih =>
    cases ls2 with
    | nil =>
      have hl : l ≠ [] := by
        intro hnil
        exact hlast (by simp [hnil])
      show splitlinesPy (joinNl [l]) = [l]
      exact splitlines_single l (hbf l (by simp)) hl
    | cons l2 ls3 =>
      have hj : joinNl (l :: l2 :: ls3) = l ++ '\n' :: joinNl (l2 :: ls3) := rfl
      rw [hj, splitlinesPy_append_nl l _ (hbf l (by simp))]
      congr 1
      exact ih (by simp) (fun x hx => hbf x (by simp [hx]))
        (by simpa [List.getLast?_cons_cons] using hlast)

/-- The blank test of `_format_diff_with_highlighting` is the all-whitespace
test. -/
theorem blank_eq_all_space (t : List Char) :
    (t.isEmpty || (stripPy t).isEmpty) = t.all isPySpace := by
  rw [Bool.eq_iff_iff]
  simp only [Bool.or_eq_true, List.isEmpty_iff, List.all_eq_true]
  constructor
  · rintro (rfl | hstrip)
    · intro c hc; simp at hc
    · intro c hc
      have h1 : ((t.dropWhile isPySpace).reverse.dropWhile isPySpace).reverse = [] := hstrip
      rw [List.reverse_eq_nil_iff, List.dropWhile_eq_nil_iff] at h1
      have h2 : ∀ x ∈ t.dropWhile isPySpace, isPySpace x = true := by
        intro x hx
        exact h1 x (List.mem_reverse.mpr hx)
      rw [← List.takeWhile_append_dropWhile isPySpace t] at hc
      rcases List.mem_append.mp hc with h | h
      · exact List.mem_takeWhile_imp h
      · exact h2 c h
  · intro hall
    right
    have h1 : t.dropWhile isPySpace = [] := List.dropWhile_eq_nil_iff.mpr hall
    unfold stripPy
    rw [h1]
    rfl

/-- A character of a member line survives into the `"\n"`-join. -/
theorem mem_joinNl (ls : List (List Char)) (l : List Char) (c : Char)
    (hl : l ∈ ls) (hc : c ∈ l) : c ∈ joinNl ls := by
  induction ls with
  | nil => simp at hl
  | cons l0 ls2 ih =>
    cases ls2 with
    | nil =>
      have : l = l0 := by simpa using hl
      subst this
      exact hc
    | cons l2 ls3 =>
      rcases List.mem_cons.mp hl with rfl | h2
      · exact List.mem_append_left _ hc
      · exact List.mem_append_right _ (List.mem_cons_of_mem _ (ih h2))

/-- `_format_diff_line` keeps every character of its input. -/
theorem mem_fmtLine (l : List Char) (c : Char) (hc : c ∈ l) :
    c ∈ _format_diff_line l := by
  unfold _format_diff_line
  split
  · simp [hc]
  · split
    · simp [hc]
    · split
      · simp [hc]
      · split
        · simp [hc]
        · exact hc

/-- Multi-character starts-with reduces to its first character. -/
theorem isPrefixOf_cons_of (a : Char) (as l : List Char)
    (h : (a :: as).isPrefixOf l = true) : ([a] : List Char).isPrefixOf l = true := by
  cases l with
  | nil => simp [List.isPrefixOf] at h
  | cons c t =>
    simp only [List.isPrefixOf, Bool.and_eq_true] at h ⊢
    exact ⟨h.1, by simp [List.isPrefixOf]⟩

/-- A line that begins with none of `'+'`, `'-'`, `"@@"` passes through the
line formatter unchanged. -/
theorem fmtLine_pass (l : List Char)
    (h1 : "+".toList.isPrefixOf l = false)
    (h2 : "-".toList.isPrefixOf l = false)
    (h3 : "@@".toList.isPrefixOf l = false) :
    _format_diff_line l = l := by
  have h1' : (['+'] : List Char).isPrefixOf l = false := h1
  have h2' : (['-'] : List Char).isPrefixOf l = false := h2
  have h4 : "+++".toList.isPrefixOf l = false := by
    cases hp : "+++".toList.isPrefixOf l
    · rfl
    · exfalso
      have := isPrefixOf_cons_of '+' ("++".toList) l hp
      exact absurd this (by simp [h1'])
  have h5 : "---".toList.isPrefixOf l = false := by
    cases hp : "---".toList.isPrefixOf l
    · rfl
    · exfalso
      have := isPrefixOf_cons_of '-' ("--".toList) l hp
      exact absurd this (by simp [h2'])
  have n1 : ¬(("+".toList.isPrefixOf l && !("+++".toList.isPrefixOf l)) = true) := by
    rw [h1]; simp
  have n2 : ¬(("-".toList.isPrefixOf l && !("---".toList.isPrefixOf l)) = true) := by
    rw [h2]; simp
  have n3 : ¬(("@@".toList.isPrefixOf l) = true) := by
    rw [h3]; simp
  have n4 : ¬(("+++".toList.isPrefixOf l || "---".toList.isPrefixOf l) = true) := by
    rw [h4, h5]; simp
  unfold _format_diff_line
  rw [if_neg n1, if_neg n2, if_neg n3, if_neg n4]

/-- A line already wrapped in markup (beginning with `'['`) passes through
the line formatter unchanged. -/
theorem fmtLine_lb (l : List Char) : _format_diff_line ('[' :: l) = '[' :: l := by
  have hplus : "+".toList.isPrefixOf ('[' :: l) = false := by
    show (['+'] : List Char).isPrefixOf ('[' :: l) = false
    have hb : ('+' == '[') = false := by decide
    simp [List.isPrefixOf, hb]
  have hminus : "-".toList.isPrefixOf ('[' :: l) = false := by
    show (['-'] : List Char).isPrefixOf ('[' :: l) = false
    have hb : ('-' == '[') = false := by decide
    simp [List.isPrefixOf, hb]
  have hat : "@@".toList.isPrefixOf ('[' :: l) = false := by
    show (['@', '@'] : List Char).isPrefixOf ('[' :: l) = false
    have hb : ('@' == '[') = false := by decide
    simp [List.isPrefixOf, hb]
  exact fmtLine_pass _ hplus hminus hat

/-- The line formatter is idempotent. -/
theorem fmtLine_idem (l : List Char) :
    _format_diff_line (_format_diff_line l) = _format_diff_line l := by
  by_cases c1 : ("+".toList.isPrefixOf l && !("+++".toList.isPrefixOf l)) = true
  · have h : _format_diff_line l =
        '[' :: (("bold green]".toList ++ l) ++ "[/bold green]".toList) := by
      unfold _format_diff_line
      rw [if_pos c1]
      rfl
    rw [h]
    exact fmtLine_lb _
  · by_cases c2 : ("-".toList.isPrefixOf l && !("---".toList.isPrefixOf l)) = true
    · have h : _format_diff_line l =
          '[' :: (("bold red]".toList ++ l) ++ "[/bold red]".toList) := by
        unfold _format_diff_line
        rw [if_neg c1, if_pos c2]
        rfl
      rw [h]
      exact fmtLine_lb _
    · by_cases c3 : ("@@".toList.isPrefixOf l) = true
      · have h : _format_diff_line l =
            '[' :: (("bold cyan]".toList ++ l) ++ "[/bold cyan]".toList) := by
          unfold _format_diff_line
          rw [if_neg c1, if_neg c2, if_pos c3]
          rfl
        rw [h]
        exact fmtLine_lb _
      · by_cases c4 : ("+++".toList.isPrefixOf l || "---".toList.isPrefixOf l) = true
        · have h : _format_diff_line l =
              '[' :: (("dim white]".toList ++ l) ++ "[/dim white]".toList) := by
            unfold _format_diff_line
            rw [if_neg c1, if_neg c2, if_neg c3, if_pos c4]
            rfl
          rw [h]
          exact fmtLine_lb _
        · have h : _format_diff_line l = l := by
            unfold _format_diff_line
            rw [if_neg c1, if_neg c2, if_neg c3, if_neg c4]
          rw [h, h]

/-- The line formatter keeps lines break-free. -/
theorem fmtLine_breakfree (l : List Char) (h : l.all (fun c => !isLineBreak c) = true) :
    (_format_diff_line l).all (fun c => !isLineBreak c) = true := by
  unfold _format_diff_line
  split
  · simp only [List.all_append, h, Bool.and_true, Bool.true_and]; decide
  · split
    · simp only [List.all_append, h, Bool.and_true, Bool.true_and]; decide
    · split
      · simp only [List.all_append, h, Bool.and_true, Bool.true_and]; decide
      · split
        · simp only [List.all_append, h, Bool.and_true, Bool.true_and]; decide
        · exact h

/-- The line formatter never turns a non-empty line into an empty one. -/
theorem fmtLine_ne_nil (l : List Char) (h : l ≠ []) : _format_diff_line l ≠ [] := by
  have hw : ∀ pre post : List Char, post ≠ [] → pre ++ l ++ post ≠ [] := by
    intro pre post hp hnil
    exact hp (List.append_eq_nil.mp hnil).2
  unfold _format_diff_line
  split
  · exact hw _ _ (by decide)
  · split
    · exact hw _ _ (by decide)
    · split
      · exact hw _ _ (by decide)
      · split
        · exact hw _ _ (by decide)
        · exact h

/-- The formatted join of a not-all-whitespace text is not all whitespace. -/
theorem fmtDiff_not_blank (t : List Char) (h : t.all isPySpace = false) :
    (joinNl ((splitlinesPy t).map _format_diff_line)).all isPySpace = false := by
  obtain ⟨c, hct, hcs⟩ : ∃ c ∈ t, isPySpace c = false := by
    obtain ⟨c, hc1, hc2⟩ := List.all_eq_false.mp h
    exact ⟨c, hc1, by simpa using hc2⟩
  obtain ⟨l, hls, hcl⟩ := nonspace_line t c hct hcs
  have hmem : c ∈ joinNl ((splitlinesPy t).map _format_diff_line) :=
    mem_joinNl _ (_format_diff_line l) c (List.mem_map_of_mem _ hls)
      (mem_fmtLine l c hcl)
  cases hall : (joinNl ((splitlinesPy t).map _format_diff_line)).all isPySpace
  · rfl
  · exfalso
    have := List.all_eq_true.mp hall c hmem
    rw [hcs] at this
    exact Bool.false_ne_true this

/-- Idempotence of the whole-text formatter away from the trailing-blank-line
defect. -/
theorem fmtDiff_idem (t : List Char)
    (h : t.all isPySpace = true ∨ (splitlinesPy t).getLast? ≠ some []) :
    _format_diff_with_highlighting (_format_diff_with_highlighting t) =
      _format_diff_with_highlighting t := by
  by_cases hblank : t.all isPySpace = true
  · have h1 : _format_diff_with_highlighting t =
        "[dim]-- no diff available --[/dim]".toList := by
      unfold _format_diff_with_highlighting
      rw [if_pos (by rw [blank_eq_all_space]; exact hblank)]
    rw [h1]
    decide
  · have hlast : (splitlinesPy t).getLast? ≠ some [] := h.resolve_left hblank
    have hball : t.all isPySpace = false := by
      cases hx : t.all isPySpace
      · rfl
      · exact absurd hx hblank
    have hne : t ≠ [] := by
      rintro rfl
      exact hblank rfl
    have hcond : (t.isEmpty || (stripPy t).isEmpty) = false := by
      rw [blank_eq_all_space]; exact hball
    have h1 : _format_diff_with_highlighting t =
        joinNl ((splitlinesPy t).map _format_diff_line) := by
      unfold _format_diff_with_highlighting
      rw [hcond]
      simp only [Bool.false_eq_true, if_false]
    have hub : (joinNl ((splitlinesPy t).map _format_diff_line)).all isPySpace = false :=
      fmtDiff_not_blank t hball
    have hucond : ((joinNl ((splitlinesPy t).map _format_diff_line)).isEmpty ||
        (stripPy (joinNl ((splitlinesPy t).map _format_diff_line))).isEmpty) = false := by
      rw [blank_eq_all_space]; exact hub
    have hls_ne : splitlinesPy t ≠ [] := splitlines_ne_nil t hne
    have hmap_ne : (splitlinesPy t).map _format_diff_line ≠ [] := by
      simpa using hls_ne
    have hbf : ∀ l ∈ (splitlinesPy t).map _format_diff_line,
        l.all (fun c => !isLineBreak c) = true := by
      intro l hl
      obtain ⟨l0, hl0, rfl⟩ := List.mem_map.mp hl
      exact fmtLine_breakfree l0 (splitlines_breakfree t l0 hl0)
    have hlast2 : ((splitlinesPy t).map _format_diff_line).getLast? ≠ some [] := by
      rw [List.getLast?_map]
      cases hgl : (splitlinesPy t).getLast? with
      | none => simp
      | some l0 =>
        have hl0 : l0 ≠ [] := by
          intro hnil
          exact hlast (by rw [hgl, hnil])
        simpa using fmtLine_ne_nil l0 hl0
    have hrt : splitlinesPy (joinNl ((splitlinesPy t).map _format_diff_line)) =
        (splitlinesPy t).map _format_diff_line :=
      splitlines_joinNl _ hmap_ne hbf hlast2
    have h2 : _format_diff_with_highlighting
        (joinNl ((splitlinesPy t).map _format_diff_line)) =
        joinNl ((splitlinesPy (joinNl ((splitlinesPy t).map _format_diff_line))).map
          _format_diff_line) := by
      unfold _format_diff_with_highlighting
      rw [hucond]
      simp only [Bool.false_eq_true, if_false]
    rw [h1, h2, hrt]
    congr 1
    rw [List.map_map]
    exact List.map_congr_left (fun l _ => fmtLine_idem l)

/-- C9, counterexample: the whole-text formatter is not idempotent — on the
diff text `"+x\n\n"` (which ends in a blank line) a second application drops
the trailing newline that the first application's split/join round trip
created. -/
theorem claim_C9_counterexample :
    _format_diff_with_highlighting (_format_diff_with_highlighting ("+x\n\n".toList)) ≠
      _format_diff_with_highlighting ("+x\n\n".toList) := by
  decide

/-- C9, amended: the per-line formatter is idempotent and passes lines that
begin with none of `'+'`, `'-'`, `"@@"` through unchanged; the whole-text
formatter is idempotent on every diff text that is all whitespace or whose
last `splitlines` line is non-empty (a trailing blank line is collapsed by
the split/join round trip, which is the sole source of non-idempotence). -/
theorem claim_C9_amended :
    (∀ l : List Char, _format_diff_line (_format_diff_line l) = _format_diff_line l) ∧
    (∀ l : List Char, "+".toList.isPrefixOf l = false →
      "-".toList.isPrefixOf l = false → "@@".toList.isPrefixOf l = false →
      _format_diff_line l = l) ∧
    (∀ t : List Char, (t.all isPySpace = true ∨ (splitlinesPy t).getLast? ≠ some []) →
      _format_diff_with_highlighting (_format_diff_with_highlighting t) =
        _format_diff_with_highlighting t) :=
  ⟨fmtLine_idem, fmtLine_pass, fmtDiff_idem⟩

/-- Witness for the amended C9 at concrete inputs. -/
theorem claim_C9_witness :
    _format_diff_line (" ctx".toList) = " ctx".toList ∧
    _format_diff_with_highlighting (_format_diff_with_highlighting ("+x\n".toList)) =
      _format_diff_with_highlighting ("+x\n".toList) :=
  ⟨claim_C9_amended.2.1 (" ctx".toList) (by decide) (by decide) (by decide),
    claim_C9_amended.2.2 ("+x\n".toList) (Or.inr (by decide))⟩

end CodePuppy
